import Mathlib

/-!
Verification of the snapshot/versioning engine `lib/ledgit_manager.py`.

The development is a shallow embedding of the Python source:

* Relative paths are lists of components (`Path.parts`); strings keep Python
  semantics via small helper functions (`pyEndsWith`, `pyStrip`, ...).
* The filesystem trees (source project and managed mirror) are association
  lists from relative paths to file metadata.
* The external git backend is modelled by the narrow command surface the
  source consumes (`status --porcelain`, `commit`, `rev-parse HEAD`,
  `remote get-url/set-url/add`): repository state is a list of commits
  (newest first), each a snapshot of the staged tree; command failures that
  can originate outside the engine (e.g. a failing `git commit`) are an
  explicit boolean input.
* Python functions that can raise are embedded with an `Except`/`Option`
  result; total Lean functions model the fact that a code path never raises.
-/

set_option maxHeartbeats 1000000
set_option synthInstance.maxHeartbeats 400000

/-- Python `c in s` for a character `c` and string `s`. -/
def pyContainsChar (s : String) (c : Char) : Bool := decide (c ∈ s.data)

/-- Python `s.endswith(suf)`. -/
def pyEndsWith (s suf : String) : Bool := decide (suf.data <:+ s.data)

/-- Python `s.startswith(pre)`. -/
def pyStartsWith (s pre : String) : Bool := decide (pre.data <+: s.data)

/-- Python whitespace for `str.strip()`. -/
def isPySpace (c : Char) : Bool :=
  c == ' ' || c == '\t' || c == '\n' || c == '\r' || c == '\x0b' || c == '\x0c'

/-- Python `s.strip()` with no argument (strip whitespace from both ends). -/
def pyStrip (s : String) : String :=
  ⟨((s.data.dropWhile isPySpace).reverse.dropWhile isPySpace).reverse⟩

/-- List form of Python `s.rstrip("/")`. -/
def rstripL (l : List Char) : List Char :=
  (l.reverse.dropWhile (fun c => c == '/')).reverse

/-- Python `s.rstrip("/")`: remove all trailing `/` characters. -/
def rstripSlashes (s : String) : String := ⟨rstripL s.data⟩

/-- A relative path, as its list of components (Python `PurePath.parts`). -/
abbrev RelPath := List String

/-- Python `str(rel_path)` for a relative `pathlib.Path`. -/
def pathStr (p : RelPath) : String := String.intercalate "/" p

/-- Python `rel_path.name`: the final path component. -/
def pname (p : RelPath) : String := (p.getLast?).getD ""

/-- Tokens of a shell glob pattern, for `fnmatch`. -/
inductive GlobTok where
  | star : GlobTok
  | anyChar : GlobTok
  | lit : Char → GlobTok
  | charSet : Bool → List Char → GlobTok
deriving DecidableEq

/-- Scan up to the closing `]` of a bracket expression; returns the content
and the remainder after the `]`, or `none` if the bracket is unterminated. -/
def findCloseBracket : List Char → Option (List Char × List Char)
  | [] => none
  | ']' :: rest => some ([], rest)
  | c :: rest =>
    match findCloseBracket rest with
    | some (inner, after) => some (c :: inner, after)
    | none => none

/-- Split a bracket expression (the part following `[`) into its negation
flag, its content, and the rest of the pattern, following Python
`fnmatch.translate`: a `!` right after `[` negates, and a `]` in first
content position is literal. -/
def splitBracket (cs : List Char) : Option (Bool × List Char × List Char) :=
  match cs with
  | '!' :: ']' :: rest2 =>
    match findCloseBracket rest2 with
    | some (inner, after) => some (true, ']' :: inner, after)
    | none => none
  | '!' :: rest =>
    match findCloseBracket rest with
    | some (inner, after) => some (true, inner, after)
    | none => none
  | ']' :: rest2 =>
    match findCloseBracket rest2 with
    | some (inner, after) => some (false, ']' :: inner, after)
    | none => none
  | _ =>
    match findCloseBracket cs with
    | some (inner, after) => some (false, inner, after)
    | none => none

/-- Does a character belong to a bracket expression's content
(`a-b` ranges and literal characters)? -/
def setMatches : List Char → Char → Bool
  | a :: '-' :: b :: rest, c => (decide (a ≤ c) && decide (c ≤ b)) || setMatches rest c
  | a :: rest, c => (a == c) || setMatches rest c
  | [], _ => false

/-- Tokenize a glob pattern.  The fuel argument only serves termination;
each step consumes at least one character, so fuel = input length suffices. -/
def lexGlobAux : Nat → List Char → List GlobTok
  | 0, _ => []
  | _ + 1, [] => []
  | fuel + 1, '*' :: rest => GlobTok.star :: lexGlobAux fuel rest
  | fuel + 1, '?' :: rest => GlobTok.anyChar :: lexGlobAux fuel rest
  | fuel + 1, '[' :: rest =>
    match splitBracket rest with
    | some (neg, inner, after) => GlobTok.charSet neg inner :: lexGlobAux fuel after
    | none => GlobTok.lit '[' :: lexGlobAux fuel rest
  | fuel + 1, c :: rest => GlobTok.lit c :: lexGlobAux fuel rest

/-- Tokenized form of a glob pattern. -/
def lexGlob (pattern : String) : List GlobTok := lexGlobAux pattern.data.length pattern.data

/-- Match a tokenized glob pattern against a character list.
The whole string must match (Python `fnmatch` wraps the pattern in `^...$`,
and `*` matches any sequence including `/`). -/
def tokMatch : List GlobTok → List Char → Bool
  | [], [] => true
  | [], _ :: _ => false
  | GlobTok.star :: ps, [] => tokMatch ps []
  | GlobTok.star :: ps, c :: s => tokMatch ps (c :: s) || tokMatch (GlobTok.star :: ps) s
  | GlobTok.anyChar :: _, [] => false
  | GlobTok.anyChar :: ps, _ :: s => tokMatch ps s
  | GlobTok.lit _ :: _, [] => false
  | GlobTok.lit a :: ps, c :: s => (a == c) && tokMatch ps s
  | GlobTok.charSet _ _ :: _, [] => false
  | GlobTok.charSet neg inner :: ps, c :: s => (setMatches inner c != neg) && tokMatch ps s
termination_by ps s => (ps.length, s.length)

/-- Python `fnmatch.fnmatch(s, pattern)` on a POSIX system (case-sensitive). -/
def fnmatch (s pattern : String) : Bool := tokMatch (lexGlob pattern) s.data

/-- One iteration of the loop in `GitIgnoreParser.should_ignore`:
does `pattern` match the relative path `relPath`? -/
def matchesPattern (relPath : RelPath) (pattern : String) : Bool :=
  if pyEndsWith pattern "/" then
    decide (rstripSlashes pattern ∈ relPath)
  else if decide (pattern = pathStr relPath) then true
  else if pyContainsChar pattern '*' then
    fnmatch (pathStr relPath) pattern || fnmatch (pname relPath) pattern
  else if decide (pattern ∈ relPath) || pyEndsWith (pathStr relPath) ("/" ++ pattern) then true
  else decide (pname relPath = pattern)

/-- `GitIgnoreParser.should_ignore`: the loop returns `True` as soon as one
pattern matches, which is `List.any` over the pattern list. -/
def should_ignore (patterns : List String) (relPath : RelPath) : Bool :=
  patterns.any (matchesPattern relPath)

/-- Metadata of a file in a tree: modification time and size as recorded by
`stat()`, plus the file's content as a list of lines (the content is only
consulted when the file is a `.gitignore` rule file; `shutil.copy2`
preserves all three). -/
structure FEntry where
  mtime : Nat
  size : Nat
  lines : List String
deriving DecidableEq

/-- A directory tree as an association list from relative paths to files,
in filesystem-walk (`rglob`) order. -/
abbrev FsTree := List (RelPath × FEntry)

/-- Pattern qualification in `GitIgnoreParser._parse_gitignore`:
`f"{rel_dir}/{line}"` for a rule file in subdirectory `rel_dir`. -/
def mkSubPattern (relDir : RelPath) (line : String) : String :=
  String.intercalate "/" relDir ++ "/" ++ line

/-- `GitIgnoreParser._parse_gitignore` on one rule file located in
subdirectory `relDir` of the source tree (`[]` for the root): strip each
line, skip blanks and `#` comments, and qualify patterns from
subdirectories with their directory prefix. -/
def parse_gitignore (relDir : RelPath) (lines : List String) : List String :=
  lines.filterMap (fun raw =>
    let line := pyStrip raw
    if line = "" then none
    else if pyStartsWith line "#" then none
    else if relDir = [] then some line
    else some (mkSubPattern relDir line))

/-- `GitIgnoreParser._load_patterns`: always ignore `.git/` and `.git`,
then collect every `.gitignore` file found under the source tree. -/
def load_patterns (source : FsTree) : List String :=
  [".git/", ".git"] ++
    (source.filter (fun e => decide (pname e.1 = ".gitignore"))).flatMap
      (fun e => parse_gitignore e.1.dropLast e.2.lines)

/-- First file stored at relative path `k` (filesystem read). -/
def lookupT : FsTree → RelPath → Option FEntry
  | [], _ => none
  | e :: m, k => if e.1 = k then some e.2 else lookupT m k

/-- Write file `v` at relative path `k` (filesystem write/overwrite). -/
def insertT : FsTree → RelPath → FEntry → FsTree
  | [], k, v => [(k, v)]
  | e :: m, k, v => if e.1 = k then (k, v) :: m else e :: insertT m k v

/-- Loop state of `LedgitManager.sync_files`: the mirror directory, the set
of relative paths visited so far (`synced_files`), and the copy count. -/
structure SyncAcc where
  mirror : FsTree
  synced : List RelPath
  count : Nat
deriving DecidableEq

/-- One iteration of the source walk in `LedgitManager.sync_files`:
skip ignored files; otherwise record the path as visited and copy the file
(`shutil.copy2`, preserving metadata) unless the destination exists with
`src.st_mtime <= dst.st_mtime and src.st_size == dst.st_size`. -/
def syncOne (patterns : List String) (acc : SyncAcc) (e : RelPath × FEntry) : SyncAcc :=
  if should_ignore patterns e.1 then acc
  else
    match lookupT acc.mirror e.1 with
    | some dst =>
      if e.2.mtime ≤ dst.mtime ∧ e.2.size = dst.size then
        ⟨acc.mirror, e.1 :: acc.synced, acc.count⟩
      else ⟨insertT acc.mirror e.1 e.2, e.1 :: acc.synced, acc.count + 1⟩
    | none => ⟨insertT acc.mirror e.1 e.2, e.1 :: acc.synced, acc.count + 1⟩

/-- `LedgitManager.sync_files` for a given pattern list: record the files
already present in the mirror, walk the source tree copying files as
needed, then delete every mirror file whose path was not visited in this
pass (`existing_files - synced_files`).  Returns the new mirror and the
number of files copied.  `keepPred` below is the survival test of that
deletion phase: a mirror file is removed exactly when it was already
present before the pass and was not visited. -/
def keepPred (synced existing : List RelPath) (k : RelPath) : Bool :=
  decide (k ∈ synced) || !decide (k ∈ existing)

/-- `LedgitManager.sync_files`; see the comment on `keepPred` above. -/
def sync_files (patterns : List String) (source : FsTree) (mirror : FsTree) : FsTree × Nat :=
  let existing := mirror.map Prod.fst
  let acc := source.foldl (syncOne patterns) ⟨mirror, [], 0⟩
  (acc.mirror.filter (fun e => keepPred acc.synced existing e.1), acc.count)

/-- `CommitRecord` from the source: one record per snapshot request. -/
structure CommitRecord where
  step_id : Int
  event : String
  commit_sha : String
  timestamp : String
  message : Option String
  files_changed : Int
deriving DecidableEq

/-- The dictionary produced by `CommitRecord.to_dict` (and the shape of the
entries of the ledger file's "snapshots" list).  `to_dict` always emits the
`message` key (possibly null) and always emits `files_changed`; the latter
is optional here because `from_dict` reads it with `.get("files_changed", 0)`. -/
structure RecordDict where
  step_id : Int
  event : String
  commit_sha : String
  timestamp : String
  message : Option String
  files_changed : Option Int
deriving DecidableEq

/-- `CommitRecord.to_dict`. -/
def CommitRecord.to_dict (r : CommitRecord) : RecordDict :=
  ⟨r.step_id, r.event, r.commit_sha, r.timestamp, r.message, some r.files_changed⟩

/-- `CommitRecord.from_dict`: mandatory keys read directly, `message` via
`.get`, `files_changed` via `.get` with default `0`. -/
def CommitRecord.from_dict (d : RecordDict) : CommitRecord :=
  ⟨d.step_id, d.event, d.commit_sha, d.timestamp, d.message, d.files_changed.getD 0⟩

/-- State of a session's `commits.json` ledger file: absent, present but not
valid JSON, or a parsed object with its "snapshots" list. -/
inductive CommitsFile where
  | missing : CommitsFile
  | corrupt : CommitsFile
  | valid : List RecordDict → CommitsFile
deriving DecidableEq

/-- `LedgitManager.save_commit_record`: load the current list (a missing
file or a `json.JSONDecodeError` leaves the default empty "snapshots"
list), append the new record's dict, rewrite the file. -/
def save_commit_record (file : CommitsFile) (r : CommitRecord) : CommitsFile :=
  let snaps : List RecordDict :=
    match file with
    | CommitsFile.missing => []
    | CommitsFile.corrupt => []
    | CommitsFile.valid s => s
  CommitsFile.valid (snaps ++ [r.to_dict])

/-- `LedgitManager.load_commit_records`: a missing file or a decode error
yields `[]`; otherwise parse each entry of the "snapshots" list. -/
def load_commit_records (file : CommitsFile) : List CommitRecord :=
  match file with
  | CommitsFile.missing => []
  | CommitsFile.corrupt => []
  | CommitsFile.valid s => s.map CommitRecord.from_dict

/-- Backend repository state: the commit list, newest first, each commit an
(identifier, snapshot-of-the-staged-tree) pair.  The backend is external to
the engine (spec section 6); this is its observable behaviour through the
commands the engine issues. -/
abbrev RepoCommits := List (String × FsTree)

/-- `git status --porcelain` reports nothing exactly when, after `git add .`,
the staged tree equals the head commit's tree (with no commits yet, when
nothing is staged). -/
def statusClean (commits : RepoCommits) (index : FsTree) : Bool :=
  match commits with
  | [] => index.isEmpty
  | c :: _ => decide (index = c.2)

/-- `git rev-parse HEAD`: succeeds with the newest commit's identifier,
fails (non-zero exit) when there is no commit. -/
def revParseHead (commits : RepoCommits) : Option String :=
  commits.head?.map Prod.fst

/-- Number of paths `git status --porcelain` lists: paths on which the
staged tree and the head tree disagree. -/
def changedPaths (commits : RepoCommits) (index : FsTree) : Nat :=
  let headT : FsTree := ((commits.head?).map Prod.snd).getD []
  ((index.map Prod.fst ++ headT.map Prod.fst).dedup).countP
    (fun k => decide (lookupT index k ≠ lookupT headT k))

/-- `git commit -m ...` (no `--allow-empty`): fails with non-zero exit when
there is nothing to commit; may also fail for external reasons (modelled by
`fault`, e.g. lock contention or missing identity); otherwise records a new
commit of the staged tree under a fresh identifier and exits zero. -/
def gitCommit (fault : Bool) (commits : RepoCommits) (index : FsTree) : RepoCommits × Int :=
  if statusClean commits index then (commits, 1)
  else if fault then (commits, 1)
  else (("c" ++ toString (commits.length + 1), index) :: commits, 0)

/-- The mutable state of a `LedgitManager` instance together with the
on-disk state it manages: the `_ignore_parser` cache (the parser is fully
determined by its pattern list), the `files/` mirror directory, and the
backend repository. -/
structure ManagerState where
  cached : Option (List String)
  mirror : FsTree
  commits : RepoCommits
deriving DecidableEq

/-- The pattern list the `ignore_parser` property answers with: the cached
parser if `_ignore_parser` is set, otherwise a parser freshly built from
the source tree. -/
def consultedPatterns (st : ManagerState) (source : FsTree) : List String :=
  st.cached.getD (load_patterns source)

/-- `LedgitManager.sync_files` as a method: resolve the `ignore_parser`
property (building and caching the parser on first access), run the sync
pass, and return the new instance/filesystem state plus the copy count. -/
def manager_sync_files (source : FsTree) (st : ManagerState) : ManagerState × Nat :=
  let patterns := consultedPatterns st source
  let res := sync_files patterns source st.mirror
  (⟨some patterns, res.1, st.commits⟩, res.2)

/-- The staged tree after `sync_files` followed by `git add .`. -/
def stagedIndex (source : FsTree) (st : ManagerState) : FsTree :=
  (manager_sync_files source st).1.mirror

/-- Arguments of one `create_snapshot` invocation.  The timestamp is the
wall-clock reading (`datetime.now`), an input to the embedding. -/
structure SnapArgs where
  session_id : String
  step_id : Int
  event : String
  message : Option String
  timestamp : String
deriving DecidableEq

/-- `LedgitManager.create_snapshot` for an initialized project
(`project_exists()` true, so the `initialize_project` branch is not taken):
sync files, stage everything, then either reference the existing head when
the status query reports no pending changes (null when no head resolves),
or commit and return a record with the changed-path count; a failing commit
returns null.  The function is total: no code path raises to the caller. -/
def create_snapshot (fault : Bool) (source : FsTree) (st : ManagerState)
    (a : SnapArgs) : ManagerState × Option CommitRecord :=
  let st1 := (manager_sync_files source st).1
  let index := st1.mirror
  if statusClean st1.commits index then
    match revParseHead st1.commits with
    | some sha =>
      (st1, some ⟨a.step_id, a.event, sha, a.timestamp,
        some "No changes (referencing existing commit)", 0⟩)
    | none => (st1, none)
  else
    let changed : Int := (changedPaths st1.commits index : Int)
    let msg := a.message.getD
      ("session:" ++ a.session_id.take 8 ++ " step:" ++ toString a.step_id
        ++ " event:" ++ a.event)
    let cr := gitCommit fault st1.commits index
    let st2 : ManagerState := ⟨st1.cached, st1.mirror, cr.1⟩
    if cr.2 ≠ 0 then (st2, none)
    else
      (st2, some ⟨a.step_id, a.event, (revParseHead cr.1).getD "", a.timestamp,
        some msg, changed⟩)

/-- `ProjectConfig` from the source. -/
structure ProjectConfig where
  project_hash : String
  source_path : String
  project_name : String
  created_at : String
  remote_url : Option String
deriving DecidableEq

/-- Backend commands `set_remote` can issue. -/
inductive GitCmd where
  | getUrl : String → GitCmd
  | setUrl : String → String → GitCmd
  | addRemote : String → String → GitCmd
deriving DecidableEq

/-- Exit statuses of the backend remote commands, as the environment
chooses to answer them.  The source reads only the exit status of
`remote get-url`; the statuses of `set-url` and `add` are captured but
never inspected. -/
structure RemoteEnv where
  get_url_exit : Int
  set_url_exit : Int
  add_exit : Int
deriving DecidableEq

/-- `LedgitManager.set_remote`: probe the remote with `get-url`, then
`set-url` (if it exists) or `add` (otherwise); persist the url into the
config when one loads; return `True`.  Returns the issued commands, the
updated config, and the boolean result. -/
def set_remote (env : RemoteEnv) (config : Option ProjectConfig)
    (remote_url : String) (remote_name : String) :
    List GitCmd × Option ProjectConfig × Bool :=
  let update_cmd :=
    if env.get_url_exit = 0 then GitCmd.setUrl remote_name remote_url
    else GitCmd.addRemote remote_name remote_url
  let config' :=
    match config with
    | some c => some { c with remote_url := some remote_url }
    | none => none
  ([GitCmd.getUrl remote_name, update_cmd], config', true)

/-- One step of POSIX path normalization as performed by `Path.resolve()`
in the absence of symlinks: drop empty and `.` segments, let `..` remove
the previous segment (at the root it is a no-op).  The accumulator holds
the already-resolved components in reverse. -/
def resolveSegs : List String → List String → List String
  | acc, [] => acc.reverse
  | acc, seg :: rest =>
    if seg = "" ∨ seg = "." then resolveSegs acc rest
    else if seg = ".." then resolveSegs acc.tail rest
    else resolveSegs (seg :: acc) rest

/-- `Path(p).resolve()` on Python ≥ 3.6: `strict=False`, so resolution
normalizes the path and never checks that it exists (symlinks are not
modelled; with none present, non-strict resolution is pure
normalization). -/
def path_resolve (segs : List String) : List String := resolveSegs [] segs

/-- `str()` of an absolute path with the given components. -/
def pathToString (segs : List String) : String :=
  "/" ++ String.intercalate "/" segs

/-- `compute_project_hash`: canonicalize with `Path.resolve()` and take the
first 12 characters of a digest of the canonical path string.  `digest`
abstracts `hashlib.sha256(...).hexdigest()`.  The `Except` result channel
records that the Python function can in principle raise; this body never
does — `resolve()` is non-strict and `sha256` is total. -/
def compute_project_hash (digest : String → String) (project_path : List String) :
    Except String String :=
  Except.ok ((digest (pathToString (path_resolve project_path))).take 12)

/-- Identity digest function, a concrete instantiation of the abstract
`digest` parameter for witnesses. -/
def idDigest : String → String := fun s => s

/-- Directories that exist in the example filesystem of the identity
resolution counterexample. -/
def fsExisting : List (List String) := [["home"], ["home", "user"]]

/-- Example source tree: one tracked file, no ignore-rule file. -/
def srcBefore : FsTree := [(["a.txt"], ⟨1, 3, []⟩)]

/-- The same tree after a root `.gitignore` ignoring `secret.txt` and the
file `secret.txt` itself appear. -/
def srcAfter : FsTree :=
  [(["a.txt"], ⟨1, 3, []⟩),
   ([".gitignore"], ⟨2, 10, ["secret.txt"]⟩),
   (["secret.txt"], ⟨2, 4, []⟩)]

/-- Example source tree whose subdirectory `sub` declares the pattern
`build` in its own rule file; `other/sub/build` lies outside `sub/`. -/
def srcSubIg : FsTree :=
  [(["sub", ".gitignore"], ⟨1, 6, ["build"]⟩),
   (["sub", "build"], ⟨1, 2, []⟩),
   (["other", "sub", "build"], ⟨1, 2, []⟩)]

/-- Small example source tree for the sync witnesses. -/
def srcSmall : FsTree := [(["a"], ⟨1, 5, []⟩), (["d", "b"], ⟨2, 7, []⟩)]

/-- Small example mirror holding a stale file absent from `srcSmall`. -/
def mirSmall : FsTree := [(["b"], ⟨0, 1, []⟩)]

/-- Example manager state of an initialized project: parser already cached,
empty mirror, one commit of the empty tree at head. -/
def stClean : ManagerState := ⟨some [], [], [("c1", [])]⟩

/-- Example manager state whose next sync stages a change: head commits an
empty tree while the source now holds one file. -/
def stBehind : ManagerState := ⟨some [], [], [("c1", [])]⟩

/-- Example snapshot arguments. -/
def argsA : SnapArgs := ⟨"sess-0001", 1, "after_agent_stop", none, "t1"⟩

/-- Second example snapshot arguments. -/
def argsB : SnapArgs := ⟨"sess-0001", 2, "before_user_message", none, "t2"⟩

/-! ### Association-list filesystem lemmas -/

theorem lookupT_insertT_self (m : FsTree) (k : RelPath) (v : FEntry) :
    lookupT (insertT m k v) k = some v := by
  induction m with
  | nil => simp [insertT, lookupT]
  | cons e m ih =>
    by_cases h : e.1 = k
    · simp [insertT, h, lookupT]
    · simp [insertT, h, lookupT, ih]

theorem lookupT_insertT_ne (m : FsTree) (k k' : RelPath) (v : FEntry) (h : k' ≠ k) :
    lookupT (insertT m k v) k' = lookupT m k' := by
  induction m with
  | nil =>
    have hk : ¬ (k = k') := fun hk => h hk.symm
    simp [insertT, lookupT, hk]
  | cons e m ih =>
    by_cases he : e.1 = k
    · have : ¬ (k = k') := fun hk => h hk.symm
      simp [insertT, he, lookupT, this]
    · simp only [insertT, if_neg he, lookupT, ih]

theorem lookupT_filter (q : RelPath → Bool) (m : FsTree) (k : RelPath) :
    lookupT (m.filter (fun e => q e.1)) k = if q k then lookupT m k else none := by
  induction m with
  | nil => simp [lookupT]
  | cons e m ih =>
    by_cases he : e.1 = k
    · subst he
      by_cases hq : q e.1
      · simp [List.filter_cons, hq, lookupT]
      · simp [List.filter_cons, hq, lookupT, ih]
    · by_cases hq : q e.1
      · simp only [List.filter_cons, if_pos hq, lookupT, if_neg he, ih]
      · rw [List.filter_cons, if_neg (by simpa using hq), ih]
        have hl : lookupT (e :: m) k = lookupT m k := by simp [lookupT, he]
        rw [hl]

theorem lookupT_eq_none (m : FsTree) (k : RelPath) :
    lookupT m k = none ↔ k ∉ m.map Prod.fst := by
  induction m with
  | nil => simp [lookupT]
  | cons e m ih =>
    rw [List.map_cons, List.mem_cons]
    by_cases he : e.1 = k
    · constructor
      · intro h; rw [lookupT, if_pos he] at h; cases h
      · intro h; exact absurd (Or.inl he.symm) h
    · rw [lookupT, if_neg he, ih]
      constructor
      · intro h hmem
        rcases hmem with h1 | h2
        · exact he h1.symm
        · exact h h2
      · intro h h2
        exact h (Or.inr h2)

/-! ### Sync-loop invariants -/

theorem syncOne_of_ignore (patterns : List String) (acc : SyncAcc) (e : RelPath × FEntry)
    (h : should_ignore patterns e.1 = true) :
    syncOne patterns acc e = acc := by
  unfold syncOne
  rw [if_pos h]

theorem syncOne_synced (patterns : List String) (acc : SyncAcc) (e : RelPath × FEntry) :
    (syncOne patterns acc e).synced =
      if should_ignore patterns e.1 then acc.synced else e.1 :: acc.synced := by
  unfold syncOne
  split
  · rfl
  · split
    · split <;> rfl
    · rfl

theorem syncOne_lookup_ne (patterns : List String) (acc : SyncAcc) (e : RelPath × FEntry)
    (k : RelPath) (h : e.1 ≠ k) :
    lookupT (syncOne patterns acc e).mirror k = lookupT acc.mirror k := by
  unfold syncOne
  split
  · rfl
  · split
    · split
      · rfl
      · exact lookupT_insertT_ne _ _ _ _ (Ne.symm h)
    · exact lookupT_insertT_ne _ _ _ _ (Ne.symm h)

theorem syncOne_lookup_self (patterns : List String) (acc : SyncAcc) (e : RelPath × FEntry)
    (h : should_ignore patterns e.1 = false) :
    ∃ g, lookupT (syncOne patterns acc e).mirror e.1 = some g ∧
      e.2.mtime ≤ g.mtime ∧ e.2.size = g.size := by
  unfold syncOne
  rw [if_neg (by simp [h])]
  cases hd : lookupT acc.mirror e.1 with
  | none => exact ⟨e.2, by simp [lookupT_insertT_self], le_refl _, rfl⟩
  | some dst =>
    by_cases hc : e.2.mtime ≤ dst.mtime ∧ e.2.size = dst.size
    · exact ⟨dst, by simp [if_pos hc, hd], hc.1, hc.2⟩
    · exact ⟨e.2, by simp [if_neg hc, lookupT_insertT_self], le_refl _, rfl⟩

theorem syncFold_synced (patterns : List String) (src : FsTree) (acc : SyncAcc) (k : RelPath) :
    k ∈ (src.foldl (syncOne patterns) acc).synced ↔
      k ∈ acc.synced ∨ ∃ f, (k, f) ∈ src ∧ should_ignore patterns k = false := by
  induction src generalizing acc with
  | nil => simp
  | cons e rest ih =>
    obtain ⟨ek, ev⟩ := e
    rw [List.foldl_cons, ih, syncOne_synced]
    by_cases hig : should_ignore patterns ek = true
    · rw [if_pos hig]
      constructor
      · rintro (h | ⟨f, hf, hk⟩)
        · exact Or.inl h
        · exact Or.inr ⟨f, List.mem_cons_of_mem _ hf, hk⟩
      · rintro (h | ⟨f, hf, hk⟩)
        · exact Or.inl h
        · rcases List.mem_cons.mp hf with heq | hf'
          · injection heq with h1 h2
            subst h1
            rw [hig] at hk
            cases hk
          · exact Or.inr ⟨f, hf', hk⟩
    · have hig' : should_ignore patterns ek = false := by simpa using hig
      rw [if_neg hig]
      constructor
      · rintro (h | ⟨f, hf, hk⟩)
        · rcases List.mem_cons.mp h with rfl | h'
          · exact Or.inr ⟨ev, List.mem_cons_self _ _, hig'⟩
          · exact Or.inl h'
        · exact Or.inr ⟨f, List.mem_cons_of_mem _ hf, hk⟩
      · rintro (h | ⟨f, hf, hk⟩)
        · exact Or.inl (List.mem_cons_of_mem _ h)
        · rcases List.mem_cons.mp hf with heq | hf'
          · injection heq with h1 h2
            subst h1
            exact Or.inl (List.mem_cons_self _ _)
          · exact Or.inr ⟨f, hf', hk⟩

theorem syncFold_untouched (patterns : List String) (src : FsTree) (acc : SyncAcc) (k : RelPath)
    (h : ∀ f, (k, f) ∈ src → should_ignore patterns k = true) :
    lookupT (src.foldl (syncOne patterns) acc).mirror k = lookupT acc.mirror k := by
  induction src generalizing acc with
  | nil => rfl
  | cons e rest ih =>
    obtain ⟨ek, ev⟩ := e
    rw [List.foldl_cons,
      ih _ (fun f hf => h f (List.mem_cons_of_mem _ hf))]
    by_cases he : ek = k
    · subst he
      rw [syncOne_of_ignore patterns acc _ (h ev (List.mem_cons_self _ _))]
    · exact syncOne_lookup_ne patterns acc (ek, ev) k he

theorem syncFold_mem (patterns : List String) (src : FsTree) (acc : SyncAcc)
    (hnd : (src.map Prod.fst).Nodup) :
    ∀ k f, (k, f) ∈ src → should_ignore patterns k = false →
      ∃ g, lookupT (src.foldl (syncOne patterns) acc).mirror k = some g ∧
        f.mtime ≤ g.mtime ∧ f.size = g.size := by
  induction src generalizing acc with
  | nil => intro k f hf; simp at hf
  | cons e rest ih =>
    obtain ⟨ek, ev⟩ := e
    rw [List.map_cons] at hnd
    obtain ⟨hek, hnd'⟩ := List.nodup_cons.mp hnd
    intro k f hf hig
    rw [List.foldl_cons]
    rcases List.mem_cons.mp hf with heq | hrest
    · injection heq with h1 h2
      subst h1; subst h2
      rw [syncFold_untouched patterns rest _ k
        (fun f' hf' => absurd (List.mem_map_of_mem Prod.fst hf') hek)]
      exact syncOne_lookup_self patterns acc (k, f) hig
    · exact ih _ hnd' k f hrest hig

theorem syncFold_stable (patterns : List String) (src : FsTree) (acc : SyncAcc)
    (h : ∀ k f, (k, f) ∈ src → should_ignore patterns k = false →
      ∃ g, lookupT acc.mirror k = some g ∧ f.mtime ≤ g.mtime ∧ f.size = g.size) :
    (src.foldl (syncOne patterns) acc).mirror = acc.mirror ∧
    (src.foldl (syncOne patterns) acc).count = acc.count := by
  induction src generalizing acc with
  | nil => exact ⟨rfl, rfl⟩
  | cons e rest ih =>
    obtain ⟨ek, ev⟩ := e
    rw [List.foldl_cons]
    by_cases hig : should_ignore patterns ek = true
    · rw [syncOne_of_ignore patterns acc _ hig]
      exact ih acc (fun k f hf => h k f (List.mem_cons_of_mem _ hf))
    · have hig' : should_ignore patterns ek = false := by simpa using hig
      obtain ⟨g, hg, hm, hs⟩ := h ek ev (List.mem_cons_self _ _) hig'
      have hstep : syncOne patterns acc (ek, ev) =
          ⟨acc.mirror, ek :: acc.synced, acc.count⟩ := by
        unfold syncOne
        rw [if_neg (by simp [hig'])]
        simp only [hg, if_pos (And.intro hm hs)]
      rw [hstep]
      exact ih _ (fun k f hf hk => h k f (List.mem_cons_of_mem _ hf) hk)

theorem sync_files_lookup (patterns : List String) (src mirror : FsTree)
    (hnd : (src.map Prod.fst).Nodup) :
    (∀ k f, (k, f) ∈ src → should_ignore patterns k = false →
      ∃ g, lookupT (sync_files patterns src mirror).1 k = some g ∧
        f.mtime ≤ g.mtime ∧ f.size = g.size) ∧
    (∀ k, (∀ f, (k, f) ∈ src → should_ignore patterns k = true) →
      lookupT (sync_files patterns src mirror).1 k = none) := by
  have hout : (sync_files patterns src mirror).1 =
      (src.foldl (syncOne patterns) ⟨mirror, [], 0⟩).mirror.filter
        (fun e => keepPred (src.foldl (syncOne patterns) ⟨mirror, [], 0⟩).synced
          (mirror.map Prod.fst) e.1) := rfl
  constructor
  · intro k f hf hig
    obtain ⟨g, hg, hm, hs⟩ := syncFold_mem patterns src ⟨mirror, [], 0⟩ hnd k f hf hig
    refine ⟨g, ?_, hm, hs⟩
    rw [hout, lookupT_filter, if_pos, hg]
    have hk : k ∈ (src.foldl (syncOne patterns) ⟨mirror, [], 0⟩).synced :=
      (syncFold_synced patterns src ⟨mirror, [], 0⟩ k).mpr (Or.inr ⟨f, hf, hig⟩)
    simp [keepPred, hk]
  · intro k hk
    have huntouched : lookupT (src.foldl (syncOne patterns) ⟨mirror, [], 0⟩).mirror k =
        lookupT mirror k := syncFold_untouched patterns src ⟨mirror, [], 0⟩ k hk
    have hsync : k ∉ (src.foldl (syncOne patterns) ⟨mirror, [], 0⟩).synced := by
      intro hmem
      rcases (syncFold_synced patterns src ⟨mirror, [], 0⟩ k).mp hmem with h | ⟨f, hf, hig⟩
      · simp at h
      · rw [hk f hf] at hig; cases hig
    by_cases hex : k ∈ mirror.map Prod.fst
    · rw [hout, lookupT_filter, if_neg]
      simp [keepPred, hsync, hex]
    · rw [hout, lookupT_filter]
      have hnone : lookupT mirror k = none := (lookupT_eq_none mirror k).mpr hex
      rw [huntouched, hnone]
      split <;> rfl

theorem sync_files_second (patterns : List String) (src mirror : FsTree)
    (hnd : (src.map Prod.fst).Nodup) :
    sync_files patterns src (sync_files patterns src mirror).1 =
      ((sync_files patterns src mirror).1, 0) := by
  obtain ⟨hmem, hnone⟩ := sync_files_lookup patterns src mirror hnd
  have hstable := syncFold_stable patterns src ⟨(sync_files patterns src mirror).1, [], 0⟩
    (fun k f hf hig => hmem k f hf hig)
  have hgoal : sync_files patterns src (sync_files patterns src mirror).1 =
      ((src.foldl (syncOne patterns) ⟨(sync_files patterns src mirror).1, [], 0⟩).mirror.filter
        (fun e => keepPred (src.foldl (syncOne patterns)
            ⟨(sync_files patterns src mirror).1, [], 0⟩).synced
          ((sync_files patterns src mirror).1.map Prod.fst) e.1),
        (src.foldl (syncOne patterns) ⟨(sync_files patterns src mirror).1, [], 0⟩).count) := rfl
  rw [hgoal, hstable.1, hstable.2]
  have hkeep : ∀ e ∈ (sync_files patterns src mirror).1,
      keepPred (src.foldl (syncOne patterns)
          ⟨(sync_files patterns src mirror).1, [], 0⟩).synced
        ((sync_files patterns src mirror).1.map Prod.fst) e.1 = true := by
    intro e he
    have hmemk : e.1 ∈ (sync_files patterns src mirror).1.map Prod.fst :=
      List.mem_map_of_mem Prod.fst he
    have hlk : lookupT (sync_files patterns src mirror).1 e.1 ≠ none := by
      intro hn
      exact ((lookupT_eq_none _ _).mp hn) hmemk
    have hvis : ∃ f, (e.1, f) ∈ src ∧ should_ignore patterns e.1 = false := by
      by_contra hno
      push_neg at hno
      exact hlk (hnone e.1 (fun f hf => by
        have := hno f hf
        simpa [Bool.not_eq_false] using this))
    have hsync : e.1 ∈ (src.foldl (syncOne patterns)
        ⟨(sync_files patterns src mirror).1, [], 0⟩).synced :=
      (syncFold_synced patterns src _ e.1).mpr (Or.inr hvis)
    simp [keepPred, hsync]
  rw [List.filter_eq_self.mpr hkeep]

/-! ### Ledger lemmas -/

theorem from_dict_to_dict (r : CommitRecord) :
    CommitRecord.from_dict (CommitRecord.to_dict r) = r := rfl

theorem ledger_fold (ds : List RecordDict) (rs : List CommitRecord) :
    load_commit_records (rs.foldl save_commit_record (CommitsFile.valid ds)) =
      ds.map CommitRecord.from_dict ++ rs := by
  induction rs generalizing ds with
  | nil => simp [load_commit_records]
  | cons r rs ih =>
    rw [List.foldl_cons]
    have hstep : save_commit_record (CommitsFile.valid ds) r =
        CommitsFile.valid (ds ++ [r.to_dict]) := rfl
    rw [hstep, ih]
    simp [from_dict_to_dict]

/-! ### Claim theorems -/

/-- C9: the commit ledger is append-only and order-preserving: starting from
no ledger file, after appending records `rs` in order, `load_commit_records`
returns exactly `rs` in call order with no record mutated or dropped, and a
missing or corrupt ledger file is treated as an empty list by both the load
and the append operation rather than being fatal. -/
theorem ledger_append_order_preserving (rs : List CommitRecord) :
    load_commit_records (rs.foldl save_commit_record CommitsFile.missing) = rs ∧
    load_commit_records CommitsFile.missing = [] ∧
    load_commit_records CommitsFile.corrupt = [] ∧
    (∀ r, save_commit_record CommitsFile.missing r = CommitsFile.valid [r.to_dict] ∧
      save_commit_record CommitsFile.corrupt r = CommitsFile.valid [r.to_dict]) := by
  refine ⟨?_, rfl, rfl, fun r => ⟨rfl, rfl⟩⟩
  cases rs with
  | nil => rfl
  | cons r rs =>
    rw [List.foldl_cons]
    have hstep : save_commit_record CommitsFile.missing r =
        CommitsFile.valid [r.to_dict] := rfl
    rw [hstep, ledger_fold]
    simp [from_dict_to_dict]

/-- C10: `set_remote` returns `True` for every remote url and name,
unconditionally: the boolean result does not depend on the exit status of
any of the backend remote commands, nor on whether a project configuration
loads. -/
theorem set_remote_always_true :
    ∀ (env : RemoteEnv) (config : Option ProjectConfig) (remote_url remote_name : String),
      (set_remote env config remote_url remote_name).2.2 = true :=
  fun _ _ _ _ => rfl

/-- C5 counterexample: the path `/nonexistent/x` resolves to a directory
that does not exist in the example filesystem, yet `compute_project_hash`
succeeds and silently derives an identity hash from the (non-strictly)
resolved path, instead of producing the error the claim requires. -/
theorem project_hash_ok_on_missing_path :
    path_resolve ["nonexistent", "x"] ∉ fsExisting ∧
    compute_project_hash idDigest ["nonexistent", "x"] = Except.ok "/nonexistent" :=
  ⟨by decide, rfl⟩

/-- C5 (amended): identity resolution never errors: for every source path,
existing or not, `compute_project_hash` returns `ok` with a hash derived
from the non-strictly resolved path, and the result depends only on the
resolved form of the path (equal resolutions give equal hashes). -/
theorem compute_project_hash_total_of_resolve (digest : String → String)
    (p q : List String) (h : path_resolve p = path_resolve q) :
    (compute_project_hash digest p).isOk = true ∧
    compute_project_hash digest p = compute_project_hash digest q := by
  constructor
  · rfl
  · unfold compute_project_hash
    rw [h]

theorem compute_project_hash_total_of_resolve_witness :
    path_resolve ["a", "..", "b"] = path_resolve ["b"] ∧
    ((compute_project_hash idDigest ["a", "..", "b"]).isOk = true ∧
      compute_project_hash idDigest ["a", "..", "b"] =
        compute_project_hash idDigest ["b"]) :=
  ⟨by decide, compute_project_hash_total_of_resolve idDigest ["a", "..", "b"] ["b"] (by decide)⟩

/-- C3: `sync_files` is idempotent with respect to its copy count: for every
source tree (with its paths pairwise distinct, as a filesystem walk yields
them) and every mirror state, running `sync_files` a second time with the
source tree unchanged copies no file: the second call returns `0`. -/
theorem sync_files_second_pass_zero (patterns : List String) (src mirror : FsTree)
    (hnd : (src.map Prod.fst).Nodup) :
    (sync_files patterns src (sync_files patterns src mirror).1).2 = 0 := by
  rw [sync_files_second patterns src mirror hnd]

theorem sync_files_second_pass_zero_witness :
    (srcSmall.map Prod.fst).Nodup ∧
    (sync_files [] srcSmall (sync_files [] srcSmall mirSmall).1).2 = 0 :=
  ⟨by decide, sync_files_second_pass_zero [] srcSmall mirSmall (by decide)⟩

/-- C4: after a completed `sync_files` pass the mirror holds exactly the
non-ignored source files: every source file with `should_ignore` false has
a mirror counterpart at the same relative path with matching size, and
every relative path not visited in the pass (not in the source, or
ignored) is absent from the mirror — in particular a previously-tracked
file that left the source tree is deleted by the pass. -/
theorem sync_files_mirror_exact (patterns : List String) (src mirror : FsTree)
    (hnd : (src.map Prod.fst).Nodup) :
    (∀ k f, (k, f) ∈ src → should_ignore patterns k = false →
      ∃ g, lookupT (sync_files patterns src mirror).1 k = some g ∧ g.size = f.size) ∧
    (∀ k, (∀ f, (k, f) ∈ src → should_ignore patterns k = true) →
      lookupT (sync_files patterns src mirror).1 k = none) := by
  obtain ⟨h1, h2⟩ := sync_files_lookup patterns src mirror hnd
  exact ⟨fun k f hf hig => (h1 k f hf hig).imp (fun g hg => ⟨hg.1, hg.2.2.symm⟩), h2⟩

theorem sync_files_mirror_exact_witness :
    lookupT (sync_files [] srcSmall mirSmall).1 ["b"] = none := by
  apply (sync_files_mirror_exact [] srcSmall mirSmall (by decide)).2 ["b"]
  intro f hf
  have hf' : (["b"], f) ∈ [((["a"] : RelPath), (⟨1, 5, []⟩ : FEntry)),
      ((["d", "b"] : RelPath), (⟨2, 7, []⟩ : FEntry))] := hf
  rcases List.mem_cons.mp hf' with h | hf2
  · have h1 : (["b"] : RelPath) = ["a"] := congrArg Prod.fst h
    exact absurd h1 (by decide)
  rcases List.mem_cons.mp hf2 with h | hf3
  · have h1 : (["b"] : RelPath) = ["d", "b"] := congrArg Prod.fst h
    exact absurd h1 (by decide)
  · cases hf3

/-- C8: a pattern ending in a path separator matches exactly the paths that
contain its literal segment (the pattern with trailing separators removed)
among their components: when every pattern of the rule set ends in `/`,
`should_ignore` returns true precisely when some pattern's stripped segment
occurs among the path's components. -/
theorem dir_pattern_segment_match (patterns : List String) (path : RelPath)
    (hall : ∀ p ∈ patterns, pyEndsWith p "/" = true) :
    (should_ignore patterns path = true ↔
      ∃ p ∈ patterns, rstripSlashes p ∈ path) := by
  unfold should_ignore
  rw [List.any_eq_true]
  constructor
  · rintro ⟨p, hp, hm⟩
    refine ⟨p, hp, ?_⟩
    unfold matchesPattern at hm
    rw [if_pos (hall p hp)] at hm
    exact of_decide_eq_true hm
  · rintro ⟨p, hp, hmem⟩
    refine ⟨p, hp, ?_⟩
    unfold matchesPattern
    rw [if_pos (hall p hp)]
    exact decide_eq_true hmem

theorem dir_pattern_segment_match_witness :
    (∀ p ∈ ["build/"], pyEndsWith p "/" = true) ∧
    (should_ignore ["build/"] ["x", "build", "y"] = true ↔
      ∃ p ∈ ["build/"], rstripSlashes p ∈ ["x", "build", "y"]) :=
  ⟨by decide, dir_pattern_segment_match ["build/"] ["x", "build", "y"] (by decide)⟩

/-- C6 counterexample: on one `LedgitManager` instance, a `.gitignore`
ignoring `secret.txt` added between two sync calls does not affect the
second call: the rule set consulted stays the one cached at the first
call (missing the new rule, which a fresh scan would pick up), and
`secret.txt` is copied into the mirror even though the current tree's
rules ignore it. -/
theorem ignore_rules_stale_after_gitignore_added :
    load_patterns srcAfter = [".git/", ".git", "secret.txt"] ∧
    should_ignore (load_patterns srcAfter) ["secret.txt"] = true ∧
    consultedPatterns (manager_sync_files srcBefore ⟨none, [], []⟩).1 srcAfter =
      [".git/", ".git"] ∧
    lookupT (manager_sync_files srcAfter
        (manager_sync_files srcBefore ⟨none, [], []⟩).1).1.mirror ["secret.txt"] =
      some ⟨2, 4, []⟩ :=
  ⟨by decide, by decide, by decide, by decide⟩

/-- C6 (amended): the ignore rule set is built lazily once per manager
instance and cached in `_ignore_parser`: once the cache holds `p`, every
later `sync_files` call on the same instance consults exactly `p`,
whatever the source tree (and its rule files) look like at call time, and
the call leaves `p` cached. -/
theorem ignore_rules_cached_per_instance (p : List String) (source source' : FsTree)
    (st : ManagerState) (h : st.cached = some p) :
    consultedPatterns st source = p ∧
    consultedPatterns st source' = p ∧
    (manager_sync_files source st).1.cached = some p ∧
    (manager_sync_files source st).1.mirror = (sync_files p source st.mirror).1 := by
  simp [consultedPatterns, manager_sync_files, h]

theorem ignore_rules_cached_per_instance_witness :
    stClean.cached = some [] ∧
    (consultedPatterns stClean srcBefore = [] ∧
      consultedPatterns stClean srcAfter = [] ∧
      (manager_sync_files srcBefore stClean).1.cached = some [] ∧
      (manager_sync_files srcBefore stClean).1.mirror =
        (sync_files [] srcBefore stClean.mirror).1) :=
  ⟨rfl, ignore_rules_cached_per_instance [] srcBefore srcAfter stClean rfl⟩

/-- C7 counterexample: the pattern `build` declared in `sub/.gitignore` is
rewritten to `sub/build`, yet `should_ignore` accepts the path
`other/sub/build`, which does not lie under the declaring subdirectory
`sub` (the path-suffix clause of the matcher fires on it). -/
theorem subdir_pattern_escapes_subtree :
    mkSubPattern ["sub"] "build" ∈ load_patterns srcSubIg ∧
    should_ignore (load_patterns srcSubIg) ["other", "sub", "build"] = true ∧
    ¬ (["sub"] <+: ["other", "sub", "build"]) :=
  ⟨by decide, by decide, by decide⟩

/-! ### Snapshot engine lemmas -/

theorem create_snapshot_noop_helper (fault' : Bool) (source : FsTree) (p : List String)
    (m1 : FsTree) (rest : RepoCommits) (sha : String) (a' : SnapArgs)
    (hsync : sync_files p source m1 = (m1, 0)) :
    (create_snapshot fault' source ⟨some p, m1, (sha, m1) :: rest⟩ a').2 =
      some ⟨a'.step_id, a'.event, sha, a'.timestamp,
        some "No changes (referencing existing commit)", 0⟩ := by
  have h2 : (sync_files p source m1).1 = m1 := by rw [hsync]
  have h1 : (manager_sync_files source (⟨some p, m1, (sha, m1) :: rest⟩ : ManagerState)).1 =
      ⟨some p, m1, (sha, m1) :: rest⟩ := by
    show (⟨some p, (sync_files p source m1).1, (sha, m1) :: rest⟩ : ManagerState) = _
    rw [h2]
  have hcl : statusClean ((⟨some p, m1, (sha, m1) :: rest⟩ : ManagerState).commits)
      ((⟨some p, m1, (sha, m1) :: rest⟩ : ManagerState).mirror) = true := by
    simp [statusClean]
  simp only [create_snapshot]
  rw [h1, if_pos hcl]
  rfl

/-- C2: whenever the backend commit command invoked by `create_snapshot`
exits non-zero (the commit is only issued when the status query reported
pending changes), `create_snapshot` returns null; and being a total
function of its inputs, it never propagates an exception to the caller. -/
theorem create_snapshot_commit_failure (fault : Bool) (source : FsTree)
    (st : ManagerState) (a : SnapArgs)
    (hdirty : statusClean st.commits (stagedIndex source st) = false)
    (hfail : (gitCommit fault st.commits (stagedIndex source st)).2 ≠ 0) :
    (create_snapshot fault source st a).2 = none := by
  have hd : statusClean (manager_sync_files source st).1.commits
      (manager_sync_files source st).1.mirror = false := hdirty
  have hf : (gitCommit fault (manager_sync_files source st).1.commits
      (manager_sync_files source st).1.mirror).2 ≠ 0 := hfail
  simp only [create_snapshot]
  rw [if_neg (by simp [hd]), if_pos hf]

theorem create_snapshot_commit_failure_witness :
    statusClean stBehind.commits (stagedIndex srcSmall stBehind) = false ∧
    (gitCommit true stBehind.commits (stagedIndex srcSmall stBehind)).2 ≠ 0 ∧
    (create_snapshot true srcSmall stBehind argsA).2 = none :=
  ⟨by decide, by decide,
    create_snapshot_commit_failure true srcSmall stBehind argsA (by decide) (by decide)⟩

/-- C1: for an initialized project, when the status query after sync and
stage reports no pending changes, `create_snapshot` returns a record whose
`commit_sha` is the resolved head, whose `files_changed` is 0 and whose
message indicates no new content, and returns null when no head resolves;
moreover two successive `create_snapshot` calls with the same source tree
yield, on the second call, a record with the same commit identifier as the
first call's record and `files_changed = 0`. -/
theorem create_snapshot_head_behavior
    (fault fault' : Bool) (source : FsTree) (st : ManagerState) (a a' : SnapArgs)
    (hnd : (source.map Prod.fst).Nodup) :
    (statusClean st.commits (stagedIndex source st) = true →
      (∀ sha, revParseHead st.commits = some sha →
        (create_snapshot fault source st a).2 =
          some ⟨a.step_id, a.event, sha, a.timestamp,
            some "No changes (referencing existing commit)", 0⟩) ∧
      (revParseHead st.commits = none → (create_snapshot fault source st a).2 = none)) ∧
    (∀ r1, (create_snapshot fault source st a).2 = some r1 →
      ∃ r2, (create_snapshot fault' source (create_snapshot fault source st a).1 a').2 = some r2 ∧
        r2.commit_sha = r1.commit_sha ∧ r2.files_changed = 0) := by
  have hsync2 : sync_files (consultedPatterns st source) source
      (sync_files (consultedPatterns st source) source st.mirror).1 =
      ((sync_files (consultedPatterns st source) source st.mirror).1, 0) :=
    sync_files_second (consultedPatterns st source) source st.mirror hnd
  have hstate : (manager_sync_files source st).1 =
      ⟨some (consultedPatterns st source),
        (sync_files (consultedPatterns st source) source st.mirror).1, st.commits⟩ := rfl
  constructor
  · intro hclean
    have hcl : statusClean (manager_sync_files source st).1.commits
        (manager_sync_files source st).1.mirror = true := hclean
    constructor
    · intro sha hsha
      have hrev : revParseHead (manager_sync_files source st).1.commits = some sha := hsha
      simp only [create_snapshot]
      rw [if_pos hcl, hrev]
    · intro hnone
      have hrev : revParseHead (manager_sync_files source st).1.commits = none := hnone
      simp only [create_snapshot]
      rw [if_pos hcl, hrev]
  · intro r1 hr1
    by_cases hclean : statusClean st.commits (stagedIndex source st) = true
    · have hcl : statusClean (manager_sync_files source st).1.commits
          (manager_sync_files source st).1.mirror = true := hclean
      cases hcom : st.commits with
      | nil =>
        have hres : (create_snapshot fault source st a).2 = none := by
          have hrev : revParseHead (manager_sync_files source st).1.commits = none := by
            show revParseHead st.commits = none
            rw [hcom]; rfl
          simp only [create_snapshot]
          rw [if_pos hcl, hrev]
        rw [hres] at hr1
        cases hr1
      | cons c cs =>
        obtain ⟨s0, t0⟩ := c
        have ht0 : (sync_files (consultedPatterns st source) source st.mirror).1 = t0 := by
          have hthis := hclean
          unfold statusClean stagedIndex at hthis
          rw [hstate, hcom] at hthis
          exact of_decide_eq_true hthis
        have hrev : revParseHead (manager_sync_files source st).1.commits = some s0 := by
          show revParseHead st.commits = some s0
          rw [hcom]; rfl
        have hrun : create_snapshot fault source st a =
            ((manager_sync_files source st).1,
             some ⟨a.step_id, a.event, s0, a.timestamp,
               some "No changes (referencing existing commit)", 0⟩) := by
          simp only [create_snapshot]
          rw [if_pos hcl, hrev]
        have hstate2 : (create_snapshot fault source st a).1 =
            ⟨some (consultedPatterns st source),
              (sync_files (consultedPatterns st source) source st.mirror).1,
              (s0, (sync_files (consultedPatterns st source) source st.mirror).1) :: cs⟩ := by
          rw [hrun]
          show (manager_sync_files source st).1 = _
          rw [hstate, hcom, ht0]
        refine ⟨⟨a'.step_id, a'.event, s0, a'.timestamp,
          some "No changes (referencing existing commit)", 0⟩, ?_, ?_, ?_⟩
        · rw [hstate2]
          exact create_snapshot_noop_helper fault' source _ _ cs s0 a' hsync2
        · rw [hrun] at hr1
          cases hr1
          rfl
        · rfl
    · have hdirty : statusClean st.commits (stagedIndex source st) = false := by
        simpa using hclean
      have hd : statusClean (manager_sync_files source st).1.commits
          (manager_sync_files source st).1.mirror = false := hdirty
      cases hfault : fault with
      | true =>
        have hres : (create_snapshot true source st a).2 = none := by
          have hf : (gitCommit true (manager_sync_files source st).1.commits
              (manager_sync_files source st).1.mirror).2 ≠ 0 := by
            show (gitCommit true st.commits (stagedIndex source st)).2 ≠ 0
            unfold gitCommit
            rw [if_neg (by simp [hdirty]), if_pos rfl]
            simp
          simp only [create_snapshot]
          rw [if_neg (by simp [hd]), if_pos hf]
        rw [hfault] at hr1
        rw [hres] at hr1
        cases hr1
      | false =>
        have hcr : gitCommit false (manager_sync_files source st).1.commits
            (manager_sync_files source st).1.mirror =
            (("c" ++ toString (st.commits.length + 1),
              (sync_files (consultedPatterns st source) source st.mirror).1) :: st.commits, 0) := by
          show gitCommit false st.commits (stagedIndex source st) = _
          unfold gitCommit
          rw [if_neg (by simp [hdirty]), if_neg (by simp)]
          rfl
        have hrun : create_snapshot false source st a =
            (⟨some (consultedPatterns st source),
              (sync_files (consultedPatterns st source) source st.mirror).1,
              ("c" ++ toString (st.commits.length + 1),
                (sync_files (consultedPatterns st source) source st.mirror).1) :: st.commits⟩,
             some ⟨a.step_id, a.event, "c" ++ toString (st.commits.length + 1), a.timestamp,
               some (a.message.getD ("session:" ++ a.session_id.take 8 ++ " step:"
                 ++ toString a.step_id ++ " event:" ++ a.event)),
               (changedPaths st.commits
                 (sync_files (consultedPatterns st source) source st.mirror).1 : Int)⟩) := by
          simp only [create_snapshot]
          rw [if_neg (by simp [hd]), hcr]
          rfl
        rw [hfault] at hr1
        refine ⟨⟨a'.step_id, a'.event, "c" ++ toString (st.commits.length + 1), a'.timestamp,
          some "No changes (referencing existing commit)", 0⟩, ?_, ?_, ?_⟩
        · rw [hrun]
          exact create_snapshot_noop_helper fault' source _ _ st.commits _ a' hsync2
        · rw [hrun] at hr1
          cases hr1
          rfl
        · rfl

theorem create_snapshot_head_behavior_witness :
    ((([] : FsTree).map Prod.fst).Nodup) ∧
    ((statusClean stClean.commits (stagedIndex [] stClean) = true →
      (∀ sha, revParseHead stClean.commits = some sha →
        (create_snapshot false [] stClean argsA).2 =
          some ⟨argsA.step_id, argsA.event, sha, argsA.timestamp,
            some "No changes (referencing existing commit)", 0⟩) ∧
      (revParseHead stClean.commits = none →
        (create_snapshot false [] stClean argsA).2 = none)) ∧
    (∀ r1, (create_snapshot false [] stClean argsA).2 = some r1 →
      ∃ r2, (create_snapshot false []
          (create_snapshot false [] stClean argsA).1 argsB).2 = some r2 ∧
        r2.commit_sha = r1.commit_sha ∧ r2.files_changed = 0)) :=
  ⟨by decide, create_snapshot_head_behavior false false [] stClean argsA argsB (by decide)⟩

/-! ### Ignore-matcher string lemmas -/

theorem pname_eq_or_mem (p : RelPath) : pname p = "" ∨ pname p ∈ p := by
  cases hp : p.getLast? with
  | none => exact Or.inl (by simp [pname, hp])
  | some x =>
    refine Or.inr ?_
    obtain ⟨h, hx⟩ := List.mem_getLast?_eq_getLast (Option.mem_iff.mpr hp)
    have hpn : pname p = x := by simp [pname, hp]
    rw [hpn, hx]
    exact List.getLast_mem h

theorem slash_string_not_component (path : RelPath)
    (hpath : ∀ c ∈ path, pyContainsChar c '/' = false) (s : String)
    (hs : '/' ∈ s.data) : s ∉ path := by
  intro hmem
  have hc := hpath s hmem
  unfold pyContainsChar at hc
  rw [decide_eq_false_iff_not] at hc
  exact hc hs

theorem mkSubPattern_data (d : RelPath) (line : String) :
    (mkSubPattern d line).data =
      (String.intercalate "/" d).data ++ '/' :: line.data := by
  have h1 : (mkSubPattern d line).data =
      ((String.intercalate "/" d).data ++ ['/']) ++ line.data := by
    unfold mkSubPattern
    rw [String.data_append, String.data_append]
  rw [h1, List.append_assoc]
  rfl

theorem rstripL_ne_nil_of (line : String) (hline : rstripSlashes line ≠ "") :
    rstripL line.data ≠ [] := by
  intro h
  apply hline
  show (⟨rstripL line.data⟩ : String) = ""
  rw [h]

theorem rstripL_append_slash (A B : List Char) (hB : rstripL B ≠ []) :
    rstripL (A ++ '/' :: B) = A ++ '/' :: rstripL B := by
  have hBrev : B.reverse.dropWhile (fun c => c == '/') ≠ [] := by
    intro h
    apply hB
    unfold rstripL
    rw [h]
    rfl
  have hcond : ¬ ((B.reverse.dropWhile (fun c => c == '/')).isEmpty = true) := by
    simpa [List.isEmpty_iff] using hBrev
  unfold rstripL
  rw [show (A ++ '/' :: B).reverse = B.reverse ++ '/' :: A.reverse by
    rw [List.reverse_append, List.reverse_cons, List.append_assoc]; rfl]
  rw [List.dropWhile_append, if_neg hcond]
  rw [List.reverse_append, List.reverse_cons, List.reverse_reverse, List.append_assoc]
  rfl

/-- C7 (amended): a wildcard-free pattern `line` declared in a rule file of
subdirectory `d` (and not blank once trailing separators are stripped) is
rewritten to the prefixed pattern `d/line`; on real paths (components free
of the separator), `should_ignore` accepts on account of that pattern
exactly the path whose string equals the prefixed pattern — which does lie
under `d` — together with every path whose string representation merely
ends with `/` followed by the prefixed pattern, and the latter need not lie
under `d`; a prefixed pattern ending in a separator matches nothing.  So
the claimed subtree confinement holds only up to the path-suffix clause. -/
theorem subdir_pattern_wildcard_free_scope (d : RelPath) (line : String) (path : RelPath)
    (hstar : pyContainsChar (mkSubPattern d line) '*' = false)
    (hline : rstripSlashes line ≠ "")
    (hpath : ∀ c ∈ path, pyContainsChar c '/' = false) :
    (should_ignore [mkSubPattern d line] path = true ↔
      (pyEndsWith (mkSubPattern d line) "/" = false ∧
        (pathStr path = mkSubPattern d line ∨
          pyEndsWith (pathStr path) ("/" ++ mkSubPattern d line) = true))) := by
  have hany : should_ignore [mkSubPattern d line] path =
      matchesPattern path (mkSubPattern d line) := by
    simp [should_ignore]
  have hqdata := mkSubPattern_data d line
  have hslash_q : '/' ∈ (mkSubPattern d line).data := by
    rw [hqdata]
    exact List.mem_append_right _ (List.mem_cons_self _ _)
  have hq_not_mem : mkSubPattern d line ∉ path :=
    slash_string_not_component path hpath _ hslash_q
  have hrstrip : rstripL (mkSubPattern d line).data =
      (String.intercalate "/" d).data ++ '/' :: rstripL line.data := by
    rw [hqdata]
    exact rstripL_append_slash _ _ (rstripL_ne_nil_of line hline)
  have hslash_rq : '/' ∈ (rstripSlashes (mkSubPattern d line)).data := by
    show '/' ∈ rstripL (mkSubPattern d line).data
    rw [hrstrip]
    exact List.mem_append_right _ (List.mem_cons_self _ _)
  have hrq_not_mem : rstripSlashes (mkSubPattern d line) ∉ path :=
    slash_string_not_component path hpath _ hslash_rq
  have hpname_ne : ¬ (pname path = mkSubPattern d line) := by
    rcases pname_eq_or_mem path with h | h
    · intro he
      rw [h] at he
      have hdat : (mkSubPattern d line).data = [] := by rw [← he]
      rw [hqdata] at hdat
      simp at hdat
    · intro he
      rw [he] at h
      exact hq_not_mem h
  rw [hany]
  by_cases hb : pyEndsWith (mkSubPattern d line) "/" = true
  · have hlhs : matchesPattern path (mkSubPattern d line) = false := by
      unfold matchesPattern
      rw [if_pos hb]
      exact decide_eq_false hrq_not_mem
    rw [hlhs, hb]
    simp
  · have hb' : pyEndsWith (mkSubPattern d line) "/" = false := by simpa using hb
    by_cases heq : mkSubPattern d line = pathStr path
    · have hlhs : matchesPattern path (mkSubPattern d line) = true := by
        unfold matchesPattern
        rw [if_neg hb, if_pos (by simp [heq])]
      rw [hlhs, hb']
      simp [heq.symm]
    · have hstep : matchesPattern path (mkSubPattern d line) =
          pyEndsWith (pathStr path) ("/" ++ mkSubPattern d line) := by
        unfold matchesPattern
        rw [if_neg hb, if_neg (by simp [heq]), if_neg (by simp [hstar])]
        cases hew : pyEndsWith (pathStr path) ("/" ++ mkSubPattern d line) with
        | true =>
          rw [if_pos (show (decide (mkSubPattern d line ∈ path) || true) = true by simp)]
        | false =>
          rw [if_neg (show ¬ ((decide (mkSubPattern d line ∈ path) || false) = true) by
            simp [hq_not_mem])]
          exact decide_eq_false hpname_ne
      rw [hstep, hb']
      constructor
      · intro h
        exact ⟨rfl, Or.inr h⟩
      · rintro ⟨-, h | h⟩
        · exact absurd h.symm heq
        · exact h

theorem subdir_pattern_wildcard_free_scope_witness :
    (pyContainsChar (mkSubPattern ["sub"] "build") '*' = false) ∧
    (rstripSlashes "build" ≠ "") ∧
    (∀ c ∈ (["sub", "build"] : RelPath), pyContainsChar c '/' = false) ∧
    (should_ignore [mkSubPattern ["sub"] "build"] ["sub", "build"] = true ↔
      (pyEndsWith (mkSubPattern ["sub"] "build") "/" = false ∧
        (pathStr ["sub", "build"] = mkSubPattern ["sub"] "build" ∨
          pyEndsWith (pathStr ["sub", "build"]) ("/" ++ mkSubPattern ["sub"] "build") = true))) :=
  ⟨by decide, by decide, by decide,
    subdir_pattern_wildcard_free_scope ["sub"] "build" ["sub", "build"]
      (by decide) (by decide) (by decide)⟩
